import Mathlib

/-!
Verification development for the adaptive behavioral memory and
safe-adaptation engine of the thoughtgarden repository
(`src/backend/Transformer Model/userbehaviour.py`, a TensorFlow.js
module).

Modelling conventions.
JavaScript numbers are carried as exact rationals (`ℚ`); quantities
that are irrational in exact arithmetic (Euclidean vector norms,
cosine similarities) are stated over `ℝ` with `Real.sqrt`.
Rational division by zero is `0` in Lean; each spot where the source
can produce a float `NaN` is modelled explicitly (see `dedupExceeds`
for the `0/0` similarity of a zero-norm embedding, and `JsNum` for the
`undefined` field reads in the learning-rate schedule).  In-place
mutation becomes explicit state passing.  `Date.now()` values are
passed in as parameters.
-/

namespace ThoughtGarden

/-! ## Vectors

Embeddings are finite float vectors in the source; here lists of
rationals.  `dot` models the tensor dot product of two equal-length
vectors; `normSq` the squared Euclidean norm.  The source computes
cosine similarity as `dot / (‖a‖ * ‖b‖)` (`computeSimilarities`,
lines 213-227); its comparisons with a threshold are decided below by
the sign- and square-based test `simGtB`, which is proved equivalent
to the real-valued comparison in `simGtB_eq_true_iff`. -/

def dot (a b : List ℚ) : ℚ :=
  (List.zipWith (· * ·) a b).sum

def normSq (a : List ℚ) : ℚ :=
  dot a a

/-- The real-valued cosine similarity of `computeSimilarities`:
dot product over the product of Euclidean norms.  (For zero-norm
inputs the source gets `0/0 = NaN`; over `ℝ` this junk value is `0`.
Every use below either assumes nonzero norms or handles the zero-norm
case explicitly.) -/
def simGt (t : ℚ) (a b : List ℚ) : Prop :=
  (t : ℝ) < (dot a b : ℝ) / (Real.sqrt (normSq a) * Real.sqrt (normSq b))

/-- Decidable version of `t < cosineSimilarity a b` for nonzero-norm
vectors, by comparing squares with the correct signs. -/
def simGtB (t : ℚ) (a b : List ℚ) : Bool :=
  if 0 ≤ t then
    decide (0 < dot a b ∧ t ^ 2 * (normSq a * normSq b) < dot a b ^ 2)
  else
    decide (0 ≤ dot a b ∨ dot a b ^ 2 < t ^ 2 * (normSq a * normSq b))

/-! ## SemanticStore

`ScalableMemoryManager.semantic`: parallel arrays of embeddings and
metadata; modelled as one list of records.  Of the metadata only the
fields the algorithms read are kept (`timestamp`, `access_count`);
the caller-supplied blob (interaction id, rating, feedback type) plays
no role in any claim. -/

structure SemRecord where
  emb : List ℚ
  timestamp : ℚ
  access_count : ℚ
deriving DecidableEq, Repr

/-- The guard `Math.max(...similarities) > similarity_threshold` of
`addSemanticMemory` (lines 188-196).  A zero-norm query or stored
embedding makes its similarity `0/0 = NaN` in the source; `Math.max`
then returns `NaN` and the comparison with the threshold is false, so
the rejection branch cannot fire — hence the explicit first branch. -/
def dedupExceeds (t : ℚ) (q : List ℚ) (embs : List (List ℚ)) : Bool :=
  if embs.any (fun e => decide (normSq q * normSq e = 0)) then false
  else embs.any (fun e => simGtB t q e)

/-- Index/score pairs of `pruneSemanticMemory` (lines 229-242):
`{idx, score: meta.access_count / (Date.now() - meta.timestamp)}`. -/
def pruneScore (now : ℚ) (r : SemRecord) : ℚ :=
  r.access_count / (now - r.timestamp)

/-- Comparator for the eviction sort.  The source sorts with
`(a, b) => a.score - b.score`; `Array.prototype.sort` is stable
(ES2019), and the scored array is built in index order, so the stable
sort by score equals the merge sort by (score, index) lexicographic
order used here. -/
def pruneLE (a b : ℕ × ℚ) : Bool :=
  decide (a.2 < b.2 ∨ (a.2 = b.2 ∧ a.1 ≤ b.1))

/-- Indices evicted by `pruneSemanticMemory`: the
`Math.floor(max_semantic_size * 0.2)` lowest-scoring ones.
(`Math.floor(cap * 0.2)` in doubles equals `⌊cap / 5⌋` for every
realistic capacity, since the double `0.2` exceeds `1/5` by less than
one part in `10^16`.) -/
def pruneVictims (cap : ℕ) (now : ℚ) (store : List SemRecord) : List ℕ :=
  ((store.enum.map (fun p => (p.1, pruneScore now p.2))).mergeSort pruneLE).take
    (cap / 5) |>.map Prod.fst

/-- `pruneSemanticMemory` (lines 229-242): drop the victim indices.
The source splices them out in descending index order, which preserves
the relative order of the survivors, as filtering does here. -/
def pruneSemanticMemory (cap : ℕ) (now : ℚ) (store : List SemRecord) :
    List SemRecord :=
  (store.enum.filter
    (fun p => !(pruneVictims cap now store).contains p.1)).map Prod.snd

/-- `addSemanticMemory` (lines 188-211): near-duplicate gate, then
append with fresh metadata `{timestamp: now, access_count: 0}`, then
prune when the capacity is exceeded.  Returns the JS boolean result
together with the new store. -/
def addSemanticMemory (cap : ℕ) (t : ℚ) (now : ℚ) (q : List ℚ)
    (store : List SemRecord) : Bool × List SemRecord :=
  if 0 < store.length ∧ dedupExceeds t q (store.map SemRecord.emb) = true then
    (false, store)
  else
    let store' := store ++ [⟨q, now, 0⟩]
    if cap < store'.length then (true, pruneSemanticMemory cap now store')
    else (true, store')

/-! ## EpisodicStore

`ScalableMemoryManager.episodic`: a circular buffer of records, each
carrying a synthetic id `episodic_<Date.now()>_<head>`.  The string id
parses uniquely back into the pair (wall-clock time, slot), modelled
as `ℕ × ℕ`.  JS objects are pairwise distinct; the `tag` field models
that object identity (`runAppends` tags the n-th append with `n`). -/

structure EpRecord where
  time : ℕ
  slot : ℕ
  tag : ℕ
  emb : List ℚ
deriving DecidableEq, Repr

structure EpisodicStore where
  buffer : List (Option EpRecord)
  head : ℕ
  size : ℕ
deriving DecidableEq, Repr

def initEpisodic (cap : ℕ) : EpisodicStore :=
  ⟨List.replicate cap none, 0, 0⟩

/-- `addEpisodicMemory` (lines 178-186): overwrite slot `head`,
advance `head = (head+1) mod cap`, `size = min(size+1, cap)`. -/
def addEpisodicMemory (cap : ℕ) (time tag : ℕ) (emb : List ℚ)
    (s : EpisodicStore) : EpisodicStore :=
  { buffer := s.buffer.set s.head (some ⟨time, s.head, tag, emb⟩),
    head := (s.head + 1) % cap,
    size := min (s.size + 1) cap }

/-- `findInteractionById` (lines 628-630):
`buffer.find(item => item && item.id === id)` — first slot, in array
order, holding a record whose id matches. -/
def findInteractionById (s : EpisodicStore) (id : ℕ × ℕ) :
    Option EpRecord :=
  s.buffer.findSome? (fun o =>
    match o with
    | some r => if r.time = id.1 ∧ r.slot = id.2 then some r else none
    | none => none)

/-- The store after the first `n` of a stream of appends; the k-th
append (k = 0,1,...) carries wall-clock time `times k`, embedding
`embs k`, and tag `k` (its object identity). -/
def runAppends (cap : ℕ) (times : ℕ → ℕ) (embs : ℕ → List ℚ) :
    ℕ → EpisodicStore
  | 0 => initEpisodic cap
  | n + 1 => addEpisodicMemory cap (times n) n (embs n)
      (runAppends cap times embs n)

/-- Closed form for the append index currently occupying a slot: the
largest `k < N` with `k % cap = s` (meaningful for `s < min N cap`). -/
def lastHit (cap N s : ℕ) : ℕ :=
  cap * ((N - 1 - s) / cap) + s

/-- Closed form for the circular buffer of `runAppends` after `N`
appends: slot `s` holds the record of append `lastHit cap N s` when
some append has hit the slot (`s < N`), else `null`.  Proved equal to
the buffer in `runAppends_buffer`. -/
def occ (cap : ℕ) (times : ℕ → ℕ) (embs : ℕ → List ℚ) (N s : ℕ) :
    Option EpRecord :=
  if s < N then
    some ⟨times (lastHit cap N s), s, lastHit cap N s, embs (lastHit cap N s)⟩
  else none

/-! ## Thompson-sampling bandit -/

structure BanditArm where
  alpha : ℕ
  beta : ℕ
  total_pulls : ℕ
  total_reward : ℚ
deriving DecidableEq, Repr

/-- The constructor (lines 633-645) initializes every arm to
`{alpha: 1, beta: 1, total_pulls: 0, total_reward: 0}`.  Arm names
(`temperature`, `top_p`, ...) never influence the statistics, so arms
are kept positionally. -/
def mkBandit (nArms : ℕ) : List BanditArm :=
  List.replicate nArms ⟨1, 1, 0, 0⟩

/-- Per-arm effect of `reward` (lines 659-670). -/
def rewardArm (rating : ℚ) (a : BanditArm) : BanditArm :=
  { alpha := if 1 / 2 < rating then a.alpha + 1 else a.alpha,
    beta := if 1 / 2 < rating then a.beta else a.beta + 1,
    total_pulls := a.total_pulls + 1,
    total_reward := a.total_reward + rating }

/-- `reward(rating)` iterates the identical update over every arm. -/
def banditReward (rating : ℚ) (arms : List BanditArm) : List BanditArm :=
  arms.map (rewardArm rating)

/-- Externally visible bandit calls.  `recommend()` only samples from
each arm's Beta posterior (via `Math.random()`) and never writes the
arm statistics, so as a state transformer it is the identity. -/
inductive BanditEvent where
  | reward (rating : ℚ)
  | recommend
deriving DecidableEq, Repr

def banditStep (e : BanditEvent) (arms : List BanditArm) : List BanditArm :=
  match e with
  | .reward r => banditReward r arms
  | .recommend => arms

def runBandit (evs : List BanditEvent) (arms : List BanditArm) :
    List BanditArm :=
  evs.foldl (fun b e => banditStep e b) arms

/-! ## Learning-rate schedule

`createLearningSchedule` (lines 166-176) returns
`{base_lr: 0.1, decay_rate: 0.995, min_lr: 0.01, getCurrentLR: f.bind(this)}`
where `this` is the ScalableMemoryManager (the method is called from
its constructor).  Inside the bound function, `this.base_lr`,
`this.decay_rate` and `this.min_lr` are therefore reads of fields the
manager does not have — `undefined` — and only
`this.profile.update_count` resolves.  `JsNum` models an IEEE double
that may be `NaN` (or an `undefined` read, which coerces to `NaN` in
arithmetic): `none` is `NaN`/`undefined`, `some q` a finite value. -/

def JsNum := Option ℚ
deriving DecidableEq, Repr

def jsMul : JsNum → JsNum → JsNum
  | some a, some b => some (a * b)
  | _, _ => none

/-- `Math.pow(b, n)` for a natural exponent: JS specifies
`Math.pow(x, 0) = 1` even for `x = NaN`. -/
def jsPow : JsNum → ℕ → JsNum
  | _, 0 => some 1
  | some b, n + 1 => jsMul (some b) (jsPow (some b) n)
  | none, _ + 1 => none

/-- `Math.max` returns `NaN` when any argument is `NaN`. -/
def jsMax : JsNum → JsNum → JsNum
  | some a, some b => some (max a b)
  | _, _ => none

/-- `getCurrentLR` exactly as the source executes it:
`Math.max(this.base_lr * Math.pow(this.decay_rate, this.profile.update_count), this.min_lr)`
with `this.base_lr`, `this.decay_rate`, `this.min_lr` all `undefined`
(see the section comment). -/
def getCurrentLR (update_count : ℕ) : JsNum :=
  jsMax (jsMul none (jsPow none update_count)) none

/-- Modelled from the spec: the learning-rate formula the schedule
object's own fields were written to implement,
`lr = max(base_lr * decay_rate^update_count, min_lr)` (spec section 4.3
step 1); this code is unreachable in src because of the `this`-binding
described above. -/
def specLR (base decay minlr : ℚ) (n : ℕ) : ℚ :=
  max (base * decay ^ n) minlr

/-! ## UserProfile

`updateProfileEmbedding` (lines 244-269).  The profile embedding lives
in `ℝ` because the clipping rescale divides by a Euclidean norm.  The
current learning rate is taken as a parameter `lr`: in src the call
`this.profile.learning_schedule.getCurrentLR()` supplies it, and that
schedule's defect is treated separately (see `getCurrentLR`).
The state change is given as a step relation on `ProfileState`. -/

structure ProfileState where
  embedding : Option (List ℝ)
  update_count : ℕ

/-- The manager hard-codes `stability_threshold: 0.1` (line 160). -/
def stability_threshold : ℚ :=
  1 / 10

def sumSq (l : List ℝ) : ℝ :=
  (l.map (fun x => x * x)).sum

/-- `delta = tf.sub(target, current).mul(current_lr)`. -/
def rawDelta (lr : ℝ) (cur target : List ℝ) : List ℝ :=
  List.zipWith (fun t c => (t - c) * lr) target cur

/-- One call of `updateProfileEmbedding`, faithful to the source: the
variable `norm` is computed from the *unclipped* delta (line 257) and
is what both the clipping test (line 259) and the stability gate
(line 264) read; the committed delta is the clipped one. -/
def profileStep (lr clip : ℝ) (target : List ℝ)
    (s s' : ProfileState) : Prop :=
  match s.embedding with
  | none => s' = ⟨some target, s.update_count⟩
  | some cur =>
    let d0 := rawDelta lr cur target
    let n := Real.sqrt (sumSq d0)
    let d := if clip < n then d0.map (fun x => x / n * clip) else d0
    if n < ((stability_threshold : ℚ) : ℝ) then
      s' = ⟨some (List.zipWith (· + ·) cur d), s.update_count + 1⟩
    else
      s' = s

/-- The claim's reading of the gate (C2), for comparison with
`profileStep`: commit if and only if the norm of the *post-clip*
delta is below the stability threshold. -/
def profileStepClaim (lr clip : ℝ) (target : List ℝ)
    (s s' : ProfileState) : Prop :=
  match s.embedding with
  | none => s' = ⟨some target, s.update_count⟩
  | some cur =>
    let d0 := rawDelta lr cur target
    let n := Real.sqrt (sumSq d0)
    let d := if clip < n then d0.map (fun x => x / n * clip) else d0
    if Real.sqrt (sumSq d) < ((stability_threshold : ℚ) : ℝ) then
      s' = ⟨some (List.zipWith (· + ·) cur d), s.update_count + 1⟩
    else
      s' = s

/-! ## LoRA adaptation and the feedback orchestrator

`ThoughtGardenTransformer.provideFeedback` (lines 555-581) and
`performSafeLoRAUpdate` (lines 583-614).  The adaptable-model
parameters are opaque (`P`), and the helpers that src calls but never
defines are taken from the spec's external-model contract (section 6):

* `saveLoRAState` — modelled from the spec: `snapshot()` returns an
  opaque copy of the current adaptable-model parameters;
* `calculateLoRAGradients` — modelled from the spec:
  `computeCandidateDelta(interaction, reward, gradientClip)` is an
  external call, here an arbitrary function `calcGrads`;
* `estimateKLDivergence` — modelled from the spec:
  `estimateDivergence(Delta) -> float`, here `estDiv`;
* `updateBlockLoRA` over all transformer blocks — modelled from the
  spec: `apply(Delta)` mutates the parameters, here `applyGrads`;
* `rollbackLoRAAdapters` — modelled from the spec: rollback restores
  the snapshot and discards it (spec section 3). -/

structure HistEntry where
  timestamp : ℚ
  interaction_id : ℕ × ℕ
  reward : ℚ
  kl_divergence : ℚ
  success : Bool
deriving DecidableEq, Repr

structure LoraState (P : Type) where
  active : Bool
  kl_divergence_cap : ℚ
  adaptation_history : List HistEntry
  rollback_checkpoint : Option P

/-- The process-wide state `provideFeedback` touches.  The user
profile is omitted: `provideFeedback` never reads or writes it. -/
structure SysState (P : Type) where
  episodic : EpisodicStore
  semantic : List SemRecord
  bandit : List BanditArm
  lora : LoraState P
  params : P

/-- `performSafeLoRAUpdate` (lines 583-614), transcribed in source
order: snapshot into `rollback_checkpoint` (line 585); interaction
lookup, plain `return` when absent (lines 587-588); gradients and KL
estimate; `throw` when the estimate exceeds the cap (lines 594-597),
modelled by the `Bool` component (`true` = threw, with the state as
mutated so far); otherwise apply the update to the blocks and append a
`success: true` history entry.  Nothing on the commit path clears
`rollback_checkpoint`. -/
def performSafeLoRAUpdate {P D : Type} (calcGrads : EpRecord → ℚ → D)
    (estDiv : D → ℚ) (applyGrads : P → D → P) (now : ℚ) (id : ℕ × ℕ)
    (reward : ℚ) (s : SysState P) : Bool × SysState P :=
  let s1 : SysState P :=
    { s with lora := { s.lora with rollback_checkpoint := some s.params } }
  match findInteractionById s.episodic id with
  | none => (false, s1)
  | some inter =>
    let g := calcGrads inter reward
    let kl := estDiv g
    if s.lora.kl_divergence_cap < kl then (true, s1)
    else
      (false,
        { s1 with
          params := applyGrads s1.params g,
          lora := { s1.lora with
            adaptation_history := s1.lora.adaptation_history ++
              [⟨now, id, reward, kl, true⟩] } })

/-- Modelled from the spec: `rollbackLoRAAdapters` is called (line
567) but absent from src; per spec sections 3 and 4.5, rollback
restores the model parameters from the checkpoint and discards it. -/
def rollbackLoRAAdapters {P : Type} (s : SysState P) : SysState P :=
  match s.lora.rollback_checkpoint with
  | some c =>
      { s with
        params := c,
        lora := { s.lora with rollback_checkpoint := none } }
  | none => s

/-- `provideFeedback` (lines 555-581): bandit reward, then the guarded
LoRA attempt with its catch-and-rollback, then promotion of the
interaction's embedding to semantic memory for `rating > 0.8` (with
the default similarity threshold 0.85 and semantic capacity `semCap`). -/
def provideFeedback {P D : Type} (calcGrads : EpRecord → ℚ → D)
    (estDiv : D → ℚ) (applyGrads : P → D → P) (semCap : ℕ) (now : ℚ)
    (rating : ℚ) (id : ℕ × ℕ) (explicitFeedback : Bool) (s : SysState P) :
    SysState P :=
  let s1 : SysState P := { s with bandit := banditReward rating s.bandit }
  let s2 : SysState P :=
    if 7 / 10 < rating ∧ explicitFeedback = true ∧ s1.lora.active = true then
      match performSafeLoRAUpdate calcGrads estDiv applyGrads now id rating s1 with
      | (true, sErr) => rollbackLoRAAdapters sErr
      | (false, sOk) => sOk
    else s1
  if 8 / 10 < rating then
    match findInteractionById s2.episodic id with
    | some inter =>
        { s2 with
          semantic := (addSemanticMemory semCap (17 / 20) now inter.emb
            s2.semantic).2 }
    | none => s2
  else s2

/-- `getAdaptationMetadata().adaptation_count` (line 620). -/
def adaptationCount {P : Type} (s : SysState P) : ℕ :=
  s.lora.adaptation_history.length

/-- `getAdaptationMetadata().successful_adaptations` (line 621). -/
def successfulAdaptations {P : Type} (s : SysState P) : ℕ :=
  (s.lora.adaptation_history.filter (fun h => h.success)).length

/-! ## Theorems -/

lemma normSq_nonneg (a : List ℚ) : 0 ≤ normSq a := by
  unfold normSq dot
  rw [List.zipWith_same]
  exact List.sum_nonneg (by
    intro x hx
    rcases List.mem_map.1 hx with ⟨y, _, rfl⟩
    exact mul_self_nonneg y)

lemma simGtB_eq_true_iff (t : ℚ) (a b : List ℚ)
    (ha : normSq a ≠ 0) (hb : normSq b ≠ 0) :
    simGtB t a b = true ↔ simGt t a b := by
  have ha' : (0 : ℝ) < (normSq a : ℝ) := by
    exact_mod_cast lt_of_le_of_ne (normSq_nonneg a) (Ne.symm ha)
  have hb' : (0 : ℝ) < (normSq b : ℝ) := by
    exact_mod_cast lt_of_le_of_ne (normSq_nonneg b) (Ne.symm hb)
  have hsa : (0 : ℝ) < Real.sqrt (normSq a) := Real.sqrt_pos.2 ha'
  have hsb : (0 : ℝ) < Real.sqrt (normSq b) := Real.sqrt_pos.2 hb'
  have hN : (0 : ℝ) < Real.sqrt (normSq a) * Real.sqrt (normSq b) :=
    mul_pos hsa hsb
  have hNsq : (Real.sqrt (normSq a) * Real.sqrt (normSq b)) *
      (Real.sqrt (normSq a) * Real.sqrt (normSq b))
      = (normSq a : ℝ) * (normSq b : ℝ) := by
    have hA := Real.sq_sqrt ha'.le
    have hB := Real.sq_sqrt hb'.le
    ring_nf
    rw [hA, hB]
  unfold simGt
  rw [lt_div_iff₀ hN]
  unfold simGtB
  by_cases ht : 0 ≤ t
  · rw [if_pos ht]
    simp only [decide_eq_true_eq]
    constructor
    · rintro ⟨hd, hsq⟩
      have hd' : (0 : ℝ) < (dot a b : ℝ) := by exact_mod_cast hd
      have htN : (0 : ℝ) ≤ (t : ℝ) * (Real.sqrt (normSq a) * Real.sqrt (normSq b)) :=
        mul_nonneg (by exact_mod_cast ht) hN.le
      by_contra hcon
      push_neg at hcon
      have hsq' : (dot a b : ℝ) * (dot a b : ℝ) ≤
          ((t : ℝ) * (Real.sqrt (normSq a) * Real.sqrt (normSq b))) *
          ((t : ℝ) * (Real.sqrt (normSq a) * Real.sqrt (normSq b))) :=
        mul_self_le_mul_self hd'.le hcon
      rw [mul_mul_mul_comm, hNsq] at hsq'
      have : (dot a b : ℝ) ^ 2 ≤ (t : ℝ) ^ 2 * ((normSq a : ℝ) * (normSq b : ℝ)) := by
        nlinarith [hsq']
      have hsqR : (t : ℝ) ^ 2 * ((normSq a : ℝ) * (normSq b : ℝ)) < (dot a b : ℝ) ^ 2 := by
        exact_mod_cast hsq
      linarith
    · intro hlt
      have htN : (0 : ℝ) ≤ (t : ℝ) * (Real.sqrt (normSq a) * Real.sqrt (normSq b)) :=
        mul_nonneg (by exact_mod_cast ht) hN.le
      have hd' : (0 : ℝ) < (dot a b : ℝ) := lt_of_le_of_lt htN hlt
      refine ⟨by exact_mod_cast hd', ?_⟩
      have hsq' : ((t : ℝ) * (Real.sqrt (normSq a) * Real.sqrt (normSq b))) *
          ((t : ℝ) * (Real.sqrt (normSq a) * Real.sqrt (normSq b))) <
          (dot a b : ℝ) * (dot a b : ℝ) :=
        mul_self_lt_mul_self htN hlt
      rw [mul_mul_mul_comm, hNsq] at hsq'
      have : (t : ℝ) ^ 2 * ((normSq a : ℝ) * (normSq b : ℝ)) < (dot a b : ℝ) ^ 2 := by
        nlinarith [hsq']
      exact_mod_cast this
  · rw [if_neg ht]
    push_neg at ht
    have ht' : (t : ℝ) < 0 := by exact_mod_cast ht
    have htN : (t : ℝ) * (Real.sqrt (normSq a) * Real.sqrt (normSq b)) < 0 :=
      mul_neg_of_neg_of_pos ht' hN
    simp only [decide_eq_true_eq]
    have htNsq : ((t : ℝ) * (Real.sqrt (normSq a) * Real.sqrt (normSq b))) *
        ((t : ℝ) * (Real.sqrt (normSq a) * Real.sqrt (normSq b))) =
        (t : ℝ) ^ 2 * ((normSq a : ℝ) * (normSq b : ℝ)) := by
      rw [mul_mul_mul_comm, hNsq]; ring
    constructor
    · rintro (hd | hsq)
      · have : (0 : ℝ) ≤ (dot a b : ℝ) := by exact_mod_cast hd
        linarith
      · by_contra hcon
        push_neg at hcon
        have hsqR : (dot a b : ℝ) ^ 2 < (t : ℝ) ^ 2 * ((normSq a : ℝ) * (normSq b : ℝ)) := by
          exact_mod_cast hsq
        have h2 : -((t : ℝ) * (Real.sqrt (normSq a) * Real.sqrt (normSq b))) ≤
            -(dot a b : ℝ) := neg_le_neg hcon
        have h3 : (0 : ℝ) ≤ -((t : ℝ) * (Real.sqrt (normSq a) * Real.sqrt (normSq b))) := by
          linarith
        have h4 := mul_self_le_mul_self h3 h2
        rw [neg_mul_neg, neg_mul_neg, htNsq] at h4
        nlinarith [h4, hsqR]
    · intro hlt
      by_cases hd : 0 ≤ dot a b
      · exact Or.inl hd
      · push_neg at hd
        refine Or.inr ?_
        have hd' : (dot a b : ℝ) < 0 := by exact_mod_cast hd
        have h2 : -(dot a b : ℝ) < -((t : ℝ) * (Real.sqrt (normSq a) * Real.sqrt (normSq b))) :=
          neg_lt_neg hlt
        have h3 : (0 : ℝ) ≤ -(dot a b : ℝ) := by linarith
        have h4 := mul_self_lt_mul_self h3 h2
        rw [neg_mul_neg, neg_mul_neg, htNsq] at h4
        have : (dot a b : ℝ) ^ 2 < (t : ℝ) ^ 2 * ((normSq a : ℝ) * (normSq b : ℝ)) := by
          nlinarith [h4]
        exact_mod_cast this


/-- C6: the learning-rate schedule.  The claim states the effective
learning rate is `max(base_lr * decay_rate^update_count, min_lr)`
(0.1, 0.995, 0.01), non-increasing and bounded below by `min_lr`.
The code contradicts its own schedule fields: because `getCurrentLR`
is `.bind(this)`-bound to the memory manager, `this.base_lr`,
`this.decay_rate` and `this.min_lr` are `undefined`, and the function
returns `NaN` for every `update_count` — never the value of the
formula its own fields spell out. -/
theorem getCurrentLR_always_nan :
    (∀ n, getCurrentLR n = none) ∧
    specLR (1 / 10) (199 / 200) (1 / 100) 0 = 1 / 10 ∧
    (∀ n, getCurrentLR n ≠ some (specLR (1 / 10) (199 / 200) (1 / 100) n)) := by
  have h : ∀ n, getCurrentLR n = none := by
    intro n
    unfold getCurrentLR
    cases jsPow none n <;> rfl
  refine ⟨h, ?_, fun n => by rw [h n]; simp⟩
  unfold specLR
  rw [pow_zero, mul_one]
  exact max_eq_left (by norm_num)

/-- C8: `reward(rating)` updates every arm identically: `total_pulls`
gains 1, `total_reward` gains `rating`, and `alpha` gains 1 when
`rating > 0.5`, otherwise `beta` gains 1; no other arm field changes
(the four fields listed exhaust `BanditArm`). -/
theorem reward_updates_every_arm (rating : ℚ) (arms : List BanditArm)
    (i : ℕ) (h : i < arms.length) :
    ∃ a a', arms[i]? = some a ∧ (banditReward rating arms)[i]? = some a' ∧
      a'.total_pulls = a.total_pulls + 1 ∧
      a'.total_reward = a.total_reward + rating ∧
      (1 / 2 < rating → a'.alpha = a.alpha + 1 ∧ a'.beta = a.beta) ∧
      (¬ (1 / 2 < rating) → a'.beta = a.beta + 1 ∧ a'.alpha = a.alpha) := by
  refine ⟨arms[i], rewardArm rating arms[i], List.getElem?_eq_getElem h, ?_, ?_, ?_, ?_, ?_⟩
  · rw [banditReward, List.getElem?_map, List.getElem?_eq_getElem h]
    rfl
  · rfl
  · rfl
  · intro hr
    simp only [rewardArm, if_pos hr]
    exact ⟨trivial, trivial⟩
  · intro hr
    simp only [rewardArm, if_neg hr]
    exact ⟨trivial, trivial⟩

/-- Witness for C8 at a concrete bandit. -/
theorem reward_updates_every_arm_witness :
    0 < ([⟨1, 1, 0, 0⟩] : List BanditArm).length ∧
    (∃ a a', ([⟨1, 1, 0, 0⟩] : List BanditArm)[0]? = some a ∧
      (banditReward (9 / 10) [⟨1, 1, 0, 0⟩])[0]? = some a' ∧
      a'.total_pulls = a.total_pulls + 1 ∧
      a'.total_reward = a.total_reward + 9 / 10 ∧
      (1 / 2 < (9 / 10 : ℚ) → a'.alpha = a.alpha + 1 ∧ a'.beta = a.beta) ∧
      (¬ (1 / 2 < (9 / 10 : ℚ)) → a'.beta = a.beta + 1 ∧ a'.alpha = a.alpha)) :=
  ⟨by norm_num, reward_updates_every_arm (9 / 10) [⟨1, 1, 0, 0⟩] 0 (by norm_num)⟩

lemma runBandit_preserves_ge_one (evs : List BanditEvent) :
    ∀ b : List BanditArm, (∀ a ∈ b, 1 ≤ a.alpha ∧ 1 ≤ a.beta) →
      ∀ a ∈ runBandit evs b, 1 ≤ a.alpha ∧ 1 ≤ a.beta := by
  induction evs with
  | nil => intro b hb; simpa [runBandit] using hb
  | cons e evs ih =>
    intro b hb
    have hstep : ∀ a ∈ banditStep e b, 1 ≤ a.alpha ∧ 1 ≤ a.beta := by
      cases e with
      | recommend => simpa [banditStep] using hb
      | reward r =>
        intro a ha
        simp only [banditStep, banditReward, List.mem_map] at ha
        obtain ⟨a0, ha0, rfl⟩ := ha
        obtain ⟨h1, h2⟩ := hb a0 ha0
        by_cases hr : 1 / 2 < r
        · refine ⟨?_, ?_⟩ <;> simp only [rewardArm, if_pos hr] <;> omega
        · refine ⟨?_, ?_⟩ <;> simp only [rewardArm, if_neg hr] <;> omega
    have : runBandit (e :: evs) b = runBandit evs (banditStep e b) := rfl
    rw [this]
    exact ih (banditStep e b) hstep

/-- C9: every arm starts at `(alpha, beta, total_pulls, total_reward)
= (1, 1, 0, 0)`, and under any sequence of `reward`/`recommend` calls
every reachable arm keeps `alpha ≥ 1` and `beta ≥ 1`. -/
theorem bandit_sampling_nondegenerate (n : ℕ) (evs : List BanditEvent) :
    (∀ a ∈ mkBandit n, a = ⟨1, 1, 0, 0⟩) ∧
    (∀ a ∈ runBandit evs (mkBandit n), 1 ≤ a.alpha ∧ 1 ≤ a.beta) := by
  constructor
  · intro a ha
    exact List.eq_of_mem_replicate ha
  · refine runBandit_preserves_ge_one evs (mkBandit n) ?_
    intro a ha
    rw [List.eq_of_mem_replicate ha]
    exact ⟨le_refl 1, le_refl 1⟩

/-- Witness for C9 on a concrete run. -/
theorem bandit_sampling_nondegenerate_witness :
    (⟨2, 1, 1, 9 / 10⟩ : BanditArm) ∈
      runBandit [BanditEvent.reward (9 / 10)] (mkBandit 1) ∧
    (1 ≤ (2 : ℕ) ∧ 1 ≤ (1 : ℕ)) := by
  have hmem : (⟨2, 1, 1, 9 / 10⟩ : BanditArm) ∈
      runBandit [BanditEvent.reward (9 / 10)] (mkBandit 1) := by
    norm_num [runBandit, banditStep, banditReward, rewardArm, mkBandit]
  exact ⟨hmem,
    (bandit_sampling_nondegenerate 1 [BanditEvent.reward (9 / 10)]).2 _ hmem⟩

/-- C10: the near-duplicate gate is not total over zero-norm inputs.
Inserting the zero embedding into a store that already holds that same
zero embedding divides by a zero norm product inside the similarity
(in src `0/0 = NaN`, whose comparison with the threshold is false;
here the junk value `0`), so the rejection branch does not fire:
`tryInsert` returns `true` and the exact duplicate is stored. -/
theorem zero_norm_duplicate_is_inserted :
    normSq [(0 : ℚ)] = 0 ∧
    addSemanticMemory 1000 (17 / 20) 1 [0] [⟨[0], 0, 0⟩]
      = (true, [⟨[0], 0, 0⟩, ⟨[0], 1, 0⟩]) ∧
    (addSemanticMemory 1000 (17 / 20) 1 [0] [⟨[0], 0, 0⟩]).2.map SemRecord.emb
      = [[0], [0]] := by
  refine ⟨by norm_num [normSq, dot], ?_, ?_⟩ <;>
    norm_num [addSemanticMemory, dedupExceeds, normSq, dot]

/-- C3 counterexample: the gate is strict.  With threshold `3/5`, a
stored embedding `[3,4]` and query `[1,0]` have cosine similarity
exactly `3/5` (so "maximum similarity ≥ threshold" holds), yet
`addSemanticMemory` returns `true` and the store grows — the claim's
"≥ threshold returns false" is violated at equality. -/
theorem dedup_gate_accepts_at_exact_threshold :
    (dot [1, 0] [3, 4] : ℝ) /
      (Real.sqrt (normSq [1, 0]) * Real.sqrt (normSq [3, 4]))
      = ((3 / 5 : ℚ) : ℝ) ∧
    addSemanticMemory 1000 (3 / 5) 1 [1, 0] [⟨[3, 4], 0, 0⟩]
      = (true, [⟨[3, 4], 0, 0⟩, ⟨[1, 0], 1, 0⟩]) := by
  constructor
  · have h1 : (normSq [1, 0] : ℚ) = 1 := by norm_num [normSq, dot]
    have h2 : (normSq [3, 4] : ℚ) = 25 := by norm_num [normSq, dot]
    have h3 : (dot [1, 0] [3, 4] : ℚ) = 3 := by norm_num [dot]
    rw [h1, h2, h3]
    have h25 : Real.sqrt ((25 : ℚ) : ℝ) = 5 := by
      rw [show (((25 : ℚ)) : ℝ) = (5 : ℝ) ^ 2 by norm_num]
      exact Real.sqrt_sq (by norm_num)
    rw [h25]
    norm_num
  · norm_num [addSemanticMemory, dedupExceeds, simGtB, normSq, dot]

/-- C3 amended: for a non-empty store of nonzero-norm embeddings, a
nonzero-norm query and spare capacity, the insert returns `false` and
leaves the store unchanged iff some stored embedding's cosine
similarity *strictly exceeds* the threshold; and when no stored
similarity strictly exceeds it (so also at exact equality), the insert
returns `true` and appends one record. -/
theorem addSemanticMemory_gate (cap : ℕ) (t : ℚ) (now : ℚ) (q : List ℚ)
    (store : List SemRecord) (hne : store ≠ [])
    (hq : normSq q ≠ 0) (hs : ∀ r ∈ store, normSq r.emb ≠ 0)
    (hcap : store.length < cap) :
    ((∃ r ∈ store, simGt t q r.emb) →
      addSemanticMemory cap t now q store = (false, store)) ∧
    ((∀ r ∈ store, ¬ simGt t q r.emb) →
      addSemanticMemory cap t now q store = (true, store ++ [⟨q, now, 0⟩])) := by
  have hguard : (store.map SemRecord.emb).any
      (fun e => decide (normSq q * normSq e = 0)) = false := by
    rw [List.any_eq_false]
    intro e he
    rcases List.mem_map.1 he with ⟨r, hr, rfl⟩
    simp only [decide_eq_true_eq]
    exact mul_ne_zero hq (hs r hr)
  have hdedup : dedupExceeds t q (store.map SemRecord.emb)
      = (store.map SemRecord.emb).any (fun e => simGtB t q e) := by
    rw [dedupExceeds, if_neg]
    rw [hguard]
    exact Bool.false_ne_true
  have hiff : dedupExceeds t q (store.map SemRecord.emb) = true ↔
      ∃ r ∈ store, simGt t q r.emb := by
    rw [hdedup, List.any_eq_true]
    constructor
    · rintro ⟨e, he, hgt⟩
      rcases List.mem_map.1 he with ⟨r, hr, rfl⟩
      exact ⟨r, hr, (simGtB_eq_true_iff t q r.emb hq (hs r hr)).1 hgt⟩
    · rintro ⟨r, hr, hgt⟩
      exact ⟨r.emb, List.mem_map_of_mem _ hr,
        (simGtB_eq_true_iff t q r.emb hq (hs r hr)).2 hgt⟩
  constructor
  · intro hex
    rw [addSemanticMemory, if_pos]
    exact ⟨List.length_pos.2 hne, hiff.2 hex⟩
  · intro hall
    have hnot : ¬ (0 < store.length ∧
        dedupExceeds t q (store.map SemRecord.emb) = true) := by
      rintro ⟨-, hd⟩
      rcases hiff.1 hd with ⟨r, hr, hgt⟩
      exact hall r hr hgt
    rw [addSemanticMemory, if_neg hnot]
    have hlen : ¬ cap < (store ++ [(⟨q, now, 0⟩ : SemRecord)]).length := by
      rw [List.length_append]
      simp only [List.length_cons, List.length_nil]
      omega
    simp only [if_neg hlen]

/-- Witness for C3's amended gate at a concrete accepting insert. -/
theorem addSemanticMemory_gate_witness :
    normSq [1, 0] ≠ 0 ∧
    addSemanticMemory 2 (17 / 20) 1 [1, 0] [⟨[0, 1], 0, 0⟩]
      = (true, [⟨[0, 1], 0, 0⟩] ++ [⟨[1, 0], 1, 0⟩]) := by
  have hno : ∀ r ∈ ([⟨[0, 1], 0, 0⟩] : List SemRecord),
      ¬ simGt (17 / 20) [1, 0] r.emb := by
    intro r hr
    have hr' : r = ⟨[0, 1], 0, 0⟩ := by simpa using hr
    subst hr'
    simp only [simGt]
    have hd : (dot [1, 0] [0, 1] : ℚ) = 0 := by norm_num [dot]
    rw [hd]
    push_cast
    rw [zero_div]
    norm_num
  refine ⟨by norm_num [normSq, dot], ?_⟩
  exact (addSemanticMemory_gate 2 (17 / 20) 1 [1, 0] [⟨[0, 1], 0, 0⟩]
    (by simp)
    (by norm_num [normSq, dot])
    (by
      intro r hr
      have hr' : r = ⟨[0, 1], 0, 0⟩ := by simpa using hr
      subst hr'
      norm_num [normSq, dot])
    (by simp)).2 hno

/-- C4 counterexample: with semantic capacity 1, a second (dissimilar)
insert overflows the store, the same call prunes
`floor(1 * 0.2) = 0` records, and the resulting size is 2 > 1 — the
claim's "resulting size ≤ C_s" fails for capacities below 5. -/
theorem prune_misses_bound_at_capacity_one :
    (addSemanticMemory 1 (17 / 20) 1 [0, 1] [⟨[1, 0], 0, 0⟩]).2.length = 2 ∧
    ¬ ((addSemanticMemory 1 (17 / 20) 1 [0, 1] [⟨[1, 0], 0, 0⟩]).2.length ≤ 1) := by
  have h : (addSemanticMemory 1 (17 / 20) 1 [0, 1] [⟨[1, 0], 0, 0⟩]).2.length = 2 := by
    norm_num [addSemanticMemory, dedupExceeds, simGtB, normSq, dot,
      pruneSemanticMemory, pruneVictims, List.enum, List.enumFrom]
  exact ⟨h, by omega⟩

lemma pruneLE_trans : ∀ a b c : ℕ × ℚ,
    pruneLE a b = true → pruneLE b c = true → pruneLE a c = true := by
  intro a b c hab hbc
  simp only [pruneLE, decide_eq_true_eq] at *
  rcases hab with h1 | ⟨h1, h1'⟩ <;> rcases hbc with h2 | ⟨h2, h2'⟩
  · exact Or.inl (h1.trans h2)
  · exact Or.inl (h2 ▸ h1)
  · exact Or.inl (h1 ▸ h2)
  · exact Or.inr ⟨h1.trans h2, h1'.trans h2'⟩

lemma pruneLE_total : ∀ a b : ℕ × ℚ, (pruneLE a b || pruneLE b a) = true := by
  intro a b
  simp only [pruneLE, Bool.or_eq_true, decide_eq_true_eq]
  rcases lt_trichotomy a.2 b.2 with h | h | h
  · exact Or.inl (Or.inl h)
  · rcases le_total a.1 b.1 with h' | h'
    · exact Or.inl (Or.inr ⟨h, h'⟩)
    · exact Or.inr (Or.inr ⟨h.symm, h'⟩)
  · exact Or.inr (Or.inl h)

lemma scored_map_fst (now : ℚ) (store : List SemRecord) :
    (store.enum.map (fun p => (p.1, pruneScore now p.2))).map Prod.fst
      = List.range store.length := by
  rw [List.map_map]
  have : (Prod.fst ∘ fun p : ℕ × SemRecord => (p.1, pruneScore now p.2))
      = Prod.fst := by
    funext p
    rfl
  rw [this, List.enum_map_fst]

lemma pruneVictims_eq_take (cap : ℕ) (now : ℚ) (store : List SemRecord) :
    pruneVictims cap now store
      = ((((store.enum.map (fun p => (p.1, pruneScore now p.2))).mergeSort
          pruneLE)).map Prod.fst).take (cap / 5) := by
  rw [pruneVictims, List.map_take]

lemma sorted_map_fst_perm_range (now : ℚ) (store : List SemRecord) :
    (((store.enum.map (fun p => (p.1, pruneScore now p.2))).mergeSort
      pruneLE).map Prod.fst).Perm (List.range store.length) := by
  have h := (List.mergeSort_perm
    (store.enum.map (fun p => (p.1, pruneScore now p.2))) pruneLE).map Prod.fst
  rwa [scored_map_fst] at h

lemma pruneVictims_nodup (cap : ℕ) (now : ℚ) (store : List SemRecord) :
    (pruneVictims cap now store).Nodup := by
  rw [pruneVictims_eq_take]
  exact List.Nodup.sublist (List.take_sublist _ _)
    ((sorted_map_fst_perm_range now store).nodup_iff.2
      (List.nodup_range _))

lemma pruneVictims_lt (cap : ℕ) (now : ℚ) (store : List SemRecord) :
    ∀ v ∈ pruneVictims cap now store, v < store.length := by
  intro v hv
  rw [pruneVictims_eq_take] at hv
  have hv2 := List.mem_of_mem_take hv
  have := (sorted_map_fst_perm_range now store).mem_iff.1 hv2
  exact List.mem_range.1 this

lemma pruneVictims_length (cap : ℕ) (now : ℚ) (store : List SemRecord)
    (h : cap / 5 ≤ store.length) :
    (pruneVictims cap now store).length = cap / 5 := by
  rw [pruneVictims_eq_take, List.length_take, List.length_map,
    List.length_mergeSort, List.length_map, List.enum_length]
  omega

lemma filter_not_mem_length (l : List SemRecord) (v : List ℕ)
    (hnd : v.Nodup) (hlt : ∀ i ∈ v, i < l.length) :
    ((l.enum.filter (fun p => !v.contains p.1)).map Prod.snd).length
      = l.length - v.length := by
  rw [List.length_map, ← List.countP_eq_length_filter]
  have h1 : List.countP (fun p : ℕ × SemRecord => !v.contains p.1) l.enum
      = List.countP (fun i => !v.contains i) (l.enum.map Prod.fst) := by
    rw [List.countP_map]
    rfl
  rw [h1, List.enum_map_fst]
  have h2 := List.length_eq_countP_add_countP
    (fun i => v.contains i) (List.range l.length)
  have h3 : (fun i => decide ¬ (fun i => v.contains i) i = true)
      = fun i => !v.contains i := by
    funext i
    show (decide ¬ (v.contains i = true)) = !v.contains i
    cases h : v.contains i
    · rfl
    · rfl
  rw [h3] at h2
  have h4 : List.countP (fun i => v.contains i) (List.range l.length)
      = v.length := by
    rw [List.countP_eq_length_filter]
    have hnd' : (List.filter (fun i => v.contains i)
        (List.range l.length)).Nodup :=
      List.Nodup.sublist (List.filter_sublist _) (List.nodup_range _)
    have hperm : (List.filter (fun i => v.contains i)
        (List.range l.length)).Perm v := by
      rw [List.perm_ext_iff_of_nodup hnd' hnd]
      intro a
      simp only [List.mem_filter, List.mem_range]
      constructor
      · rintro ⟨-, hc⟩
        simpa using hc
      · intro ha
        exact ⟨hlt a ha, by simpa using ha⟩
    exact hperm.length_eq
  rw [List.length_range] at h2
  omega

lemma mem_scored_iff (now : ℚ) (store : List SemRecord) (i : ℕ) (s : ℚ) :
    (i, s) ∈ store.enum.map (fun q => (q.1, pruneScore now q.2)) ↔
    ∃ r : SemRecord, store[i]? = some r ∧ s = pruneScore now r := by
  constructor
  · intro hp
    rcases List.mem_map.1 hp with ⟨e, he, hep⟩
    have h1 : e.1 = i := congrArg Prod.fst hep
    have h2 : pruneScore now e.2 = s := congrArg Prod.snd hep
    refine ⟨e.2, ?_, h2.symm⟩
    rw [← h1]
    exact List.mem_enum_iff_getElem?.1 he
  · rintro ⟨r, hr, rfl⟩
    exact List.mem_map.2 ⟨(i, r), List.mem_enum_iff_getElem?.2 hr, rfl⟩

/-- C4 amended: when an insert has just made the semantic store hold
`C_s + 1` records, `prune` removes exactly `floor(C_s * 0.2)` of them
— the lowest-scoring ones, ties broken by insertion order with the
earlier-inserted record evicted first — and the resulting size is
`≤ C_s` *provided* `floor(C_s * 0.2) ≥ 1`, i.e. `C_s ≥ 5` (for
`C_s ≤ 4` nothing is removed and the size stays `C_s + 1`; see the
counterexample). -/
theorem prune_after_overflow (cap : ℕ) (now : ℚ) (store : List SemRecord)
    (h5 : 5 ≤ cap) (hlen : store.length = cap + 1) :
    (pruneVictims cap now store).length = cap / 5 ∧
    (pruneSemanticMemory cap now store).length = cap + 1 - cap / 5 ∧
    (pruneSemanticMemory cap now store).length ≤ cap ∧
    (∀ i ∈ pruneVictims cap now store, ∀ j < store.length,
      j ∉ pruneVictims cap now store →
      ∀ ri rj : SemRecord, store[i]? = some ri → store[j]? = some rj →
        pruneScore now ri < pruneScore now rj ∨
        (pruneScore now ri = pruneScore now rj ∧ i < j)) := by
  have hk1 : 1 ≤ cap / 5 := (Nat.one_le_div_iff (by norm_num)).2 h5
  have hkle : cap / 5 ≤ store.length := by
    have := Nat.div_le_self cap 5
    omega
  have hvlen := pruneVictims_length cap now store hkle
  have hreslen : (pruneSemanticMemory cap now store).length
      = cap + 1 - cap / 5 := by
    rw [pruneSemanticMemory, filter_not_mem_length store _
      (pruneVictims_nodup cap now store) (pruneVictims_lt cap now store),
      hvlen, hlen]
  refine ⟨hvlen, hreslen, by omega, ?_⟩
  intro i hi j hj hjnot ri rj hri hrj
  have hcross : ∀ a ∈ ((store.enum.map
        (fun p => (p.1, pruneScore now p.2))).mergeSort pruneLE).take (cap / 5),
      ∀ b ∈ ((store.enum.map
        (fun p => (p.1, pruneScore now p.2))).mergeSort pruneLE).drop (cap / 5),
      pruneLE a b = true := by
    have hpair : List.Pairwise (fun a b => pruneLE a b = true)
        ((store.enum.map (fun p => (p.1, pruneScore now p.2))).mergeSort
          pruneLE) :=
      List.sorted_mergeSort pruneLE_trans pruneLE_total _
    rw [← List.take_append_drop (cap / 5)
      ((store.enum.map (fun p => (p.1, pruneScore now p.2))).mergeSort
        pruneLE), List.pairwise_append] at hpair
    exact hpair.2.2
  -- the victim pair (i, score ri) sits in the taken prefix
  have hi' : (i, pruneScore now ri) ∈ ((store.enum.map
      (fun p => (p.1, pruneScore now p.2))).mergeSort pruneLE).take (cap / 5) := by
    rw [pruneVictims] at hi
    rcases List.mem_map.1 hi with ⟨p, hp, hpi⟩
    rcases p with ⟨i0, s0⟩
    cases hpi
    have hmem := List.mem_of_mem_take hp
    have hscored := (List.mergeSort_perm _ pruneLE).mem_iff.1 hmem
    rcases (mem_scored_iff now store i0 s0).1 hscored with ⟨r, hr, rfl⟩
    rw [hri] at hr
    injection hr with hr
    rwa [← hr] at hp
  -- the survivor pair (j, score rj) sits in the dropped suffix
  have hj' : (j, pruneScore now rj) ∈ ((store.enum.map
      (fun p => (p.1, pruneScore now p.2))).mergeSort pruneLE).drop (cap / 5) := by
    have hjscored : (j, pruneScore now rj) ∈
        store.enum.map (fun p => (p.1, pruneScore now p.2)) :=
      (mem_scored_iff now store j _).2 ⟨rj, hrj, rfl⟩
    have hjsorted := (List.mergeSort_perm _ pruneLE).mem_iff.2 hjscored
    rw [← List.take_append_drop (cap / 5)
      ((store.enum.map (fun p => (p.1, pruneScore now p.2))).mergeSort
        pruneLE)] at hjsorted
    rcases List.mem_append.1 hjsorted with htake | hdrop
    · exfalso
      apply hjnot
      rw [pruneVictims]
      exact List.mem_map.2 ⟨(j, pruneScore now rj), htake, rfl⟩
    · exact hdrop
  have hle := hcross _ hi' _ hj'
  have hij : i ≠ j := fun h => hjnot (h ▸ hi)
  simp only [pruneLE, decide_eq_true_eq] at hle
  rcases hle with h | ⟨heq, hle⟩
  · exact Or.inl h
  · exact Or.inr ⟨heq, lt_of_le_of_ne hle hij⟩

/-- Witness for C4's amended pruning theorem at capacity 5 with six
records. -/
theorem prune_after_overflow_witness :
    5 ≤ 5 ∧ (List.replicate 6 (⟨[], 0, 0⟩ : SemRecord)).length = 5 + 1 ∧
    ((pruneVictims 5 2 (List.replicate 6 ⟨[], 0, 0⟩)).length = 5 / 5 ∧
      (pruneSemanticMemory 5 2 (List.replicate 6 ⟨[], 0, 0⟩)).length
        = 5 + 1 - 5 / 5 ∧
      (pruneSemanticMemory 5 2 (List.replicate 6 ⟨[], 0, 0⟩)).length ≤ 5 ∧
      (∀ i ∈ pruneVictims 5 2 (List.replicate 6 ⟨[], 0, 0⟩),
        ∀ j < (List.replicate 6 (⟨[], 0, 0⟩ : SemRecord)).length,
        j ∉ pruneVictims 5 2 (List.replicate 6 ⟨[], 0, 0⟩) →
        ∀ ri rj : SemRecord,
          (List.replicate 6 (⟨[], 0, 0⟩ : SemRecord))[i]? = some ri →
          (List.replicate 6 (⟨[], 0, 0⟩ : SemRecord))[j]? = some rj →
          pruneScore 2 ri < pruneScore 2 rj ∨
          (pruneScore 2 ri = pruneScore 2 rj ∧ i < j))) :=
  ⟨le_refl 5, by simp,
    prune_after_overflow 5 2 (List.replicate 6 ⟨[], 0, 0⟩)
      (le_refl 5) (by simp)⟩

lemma runAppends_buffer_length (cap : ℕ) (times : ℕ → ℕ)
    (embs : ℕ → List ℚ) (N : ℕ) :
    (runAppends cap times embs N).buffer.length = cap := by
  induction N with
  | zero => simp [runAppends, initEpisodic]
  | succ n ih => simp [runAppends, addEpisodicMemory, List.length_set, ih]

lemma runAppends_head (cap : ℕ) (times : ℕ → ℕ) (embs : ℕ → List ℚ)
    (N : ℕ) :
    (runAppends cap times embs N).head = N % cap := by
  induction N with
  | zero => simp [runAppends, initEpisodic]
  | succ n ih =>
    show ((runAppends cap times embs n).head + 1) % cap = (n + 1) % cap
    rw [ih, Nat.mod_add_mod]

lemma runAppends_size (cap : ℕ) (times : ℕ → ℕ) (embs : ℕ → List ℚ)
    (N : ℕ) :
    (runAppends cap times embs N).size = min N cap := by
  induction N with
  | zero => simp [runAppends, initEpisodic]
  | succ n ih =>
    show min ((runAppends cap times embs n).size + 1) cap = min (n + 1) cap
    rw [ih]
    omega

lemma occ_succ_self (cap : ℕ) (times : ℕ → ℕ) (embs : ℕ → List ℚ)
    (hcap : 0 < cap) (N : ℕ) :
    occ cap times embs (N + 1) (N % cap)
      = some ⟨times N, N % cap, N, embs N⟩ := by
  unfold occ
  rw [if_pos (by have := Nat.mod_le N cap; omega)]
  have hlh : lastHit cap (N + 1) (N % cap) = N := by
    unfold lastHit
    have h1 : N + 1 - 1 - N % cap = N - N % cap := by omega
    rw [h1]
    have h2 : cap * (N / cap) + N % cap = N := Nat.div_add_mod N cap
    have h3 : N - N % cap = cap * (N / cap) := by omega
    rw [h3, Nat.mul_div_cancel_left _ hcap]
    omega
  rw [hlh]

lemma occ_succ_other (cap : ℕ) (times : ℕ → ℕ) (embs : ℕ → List ℚ)
    (N i : ℕ) (hi : i < cap) (hne : i ≠ N % cap) :
    occ cap times embs (N + 1) i = occ cap times embs N i := by
  rcases lt_trichotomy i N with hlt | heq | hgt
  · unfold occ
    rw [if_pos (by omega), if_pos hlt]
    have hlh : lastHit cap (N + 1) i = lastHit cap N i := by
      unfold lastHit
      have h1 : N + 1 - 1 - i = N - i := by omega
      have h2 : N - 1 - i = N - i - 1 := by omega
      rw [h1, h2]
      have hm : ¬ cap ∣ N - i := by
        rw [Nat.dvd_iff_mod_eq_zero]
        intro h0
        obtain ⟨t, ht⟩ := (Nat.dvd_iff_mod_eq_zero).2 h0
        apply hne
        have hN : N = i + cap * t := by omega
        have : N % cap = i % cap := by
          rw [hN, Nat.add_mul_mod_self_left]
        rw [this, Nat.mod_eq_of_lt hi]
      have hsub : N - i - 1 + 1 = N - i := by omega
      have hdiv := Nat.succ_div (N - i - 1) cap
      rw [hsub] at hdiv
      rw [hdiv, if_neg hm, Nat.add_zero]
    rw [hlh]
  · exfalso
    subst heq
    exact hne (Nat.mod_eq_of_lt hi).symm
  · unfold occ
    rw [if_neg (by omega), if_neg (by omega)]

lemma runAppends_buffer (cap : ℕ) (times : ℕ → ℕ) (embs : ℕ → List ℚ)
    (hcap : 0 < cap) (N : ℕ) :
    (runAppends cap times embs N).buffer
      = (List.range cap).map (occ cap times embs N) := by
  induction N with
  | zero =>
    apply List.ext_getElem?
    intro i
    by_cases h : i < cap
    · rw [show (runAppends cap times embs 0).buffer = List.replicate cap none
        from rfl]
      rw [List.getElem?_replicate, if_pos h, List.getElem?_map,
        List.getElem?_range h]
      simp [occ]
    · rw [show (runAppends cap times embs 0).buffer = List.replicate cap none
        from rfl]
      rw [List.getElem?_replicate, if_neg h, List.getElem?_map,
        List.getElem?_eq_none (by simpa using Nat.le_of_not_lt h)]
      rfl
  | succ n ih =>
    have hbuf : (runAppends cap times embs (n + 1)).buffer
        = ((List.range cap).map (occ cap times embs n)).set (n % cap)
          (some ⟨times n, n % cap, n, embs n⟩) := by
      show ((runAppends cap times embs n).buffer.set
        (runAppends cap times embs n).head
        (some ⟨times n, (runAppends cap times embs n).head, n, embs n⟩))
        = _
      rw [ih, runAppends_head]
    rw [hbuf]
    apply List.ext_getElem?
    intro i
    rw [List.getElem?_set]
    by_cases hicap : i < cap
    · by_cases hieq : n % cap = i
      · subst hieq
        rw [if_pos rfl,
          if_pos (show n % cap <
            (List.map (occ cap times embs n) (List.range cap)).length by
              rw [List.length_map, List.length_range]
              exact Nat.mod_lt n hcap),
          List.getElem?_map, List.getElem?_range (Nat.mod_lt n hcap),
          Option.map_some', occ_succ_self cap times embs hcap n]
      · rw [if_neg hieq, List.getElem?_map, List.getElem?_map,
          List.getElem?_range hicap, Option.map_some', Option.map_some',
          occ_succ_other cap times embs n i hicap (fun h => hieq h.symm)]
    · have hn : n % cap ≠ i := by
        have := Nat.mod_lt n hcap
        omega
      have hlen : (List.range cap).length ≤ i := by
        rw [List.length_range]
        omega
      rw [if_neg hn, List.getElem?_map, List.getElem?_map,
        List.getElem?_eq_none hlen]
      rfl

lemma findSome?_range_single {β : Type} (f : ℕ → Option β) (cap s : ℕ)
    (hs : s < cap) (hother : ∀ t, t < cap → t ≠ s → f t = none) :
    (List.range cap).findSome? f = f s := by
  induction cap with
  | zero => omega
  | succ c ih =>
    rw [List.range_succ, List.findSome?_append]
    have hsingle : ∀ x : ℕ, List.findSome? f [x] = f x := by
      intro x
      cases h : f x <;> simp [List.findSome?_cons, h]
    by_cases hsc : s = c
    · subst hsc
      have hnone : (List.range s).findSome? f = none :=
        List.findSome?_eq_none_iff.2 (fun t ht => by
          have ht' := List.mem_range.1 ht
          exact hother t (by omega) (by omega))
      rw [hnone, hsingle, Option.none_or]
    · have hs' : s < c := by omega
      rw [ih hs' (fun t ht hts => hother t (by omega) hts), hsingle,
        hother c (by omega) (Ne.symm hsc)]
      cases h : f s <;> rfl

lemma lastHit_of_recent (cap N k : ℕ) (hk : k < N)
    (hge : N ≤ k + cap) : lastHit cap N (k % cap) = k := by
  unfold lastHit
  have hdm := Nat.div_add_mod k cap
  have hq : (N - 1 - k % cap) / cap = k / cap := by
    apply Nat.div_eq_of_lt_le
    · have h1 : k / cap * cap = cap * (k / cap) := Nat.mul_comm _ _
      omega
    · have h2 : (k / cap + 1) * cap = cap * (k / cap) + cap := by ring
      omega
  rw [hq]
  omega

lemma lastHit_ge (cap N s : ℕ) (hcap : 0 < cap) (hs : s < N) :
    N ≤ lastHit cap N s + cap := by
  unfold lastHit
  have h1 : N - 1 - s < cap * ((N - 1 - s) / cap + 1) := by
    have hd := Nat.div_add_mod (N - 1 - s) cap
    have hm := Nat.mod_lt (N - 1 - s) hcap
    calc N - 1 - s = cap * ((N - 1 - s) / cap) + (N - 1 - s) % cap := hd.symm
      _ < cap * ((N - 1 - s) / cap) + cap := by omega
      _ = cap * ((N - 1 - s) / cap + 1) := by rw [Nat.mul_succ]
  rw [Nat.mul_succ] at h1
  omega

/-- The slot-matching test of `findInteractionById`. -/
lemma findInteraction_runAppends (cap : ℕ) (times : ℕ → ℕ)
    (embs : ℕ → List ℚ) (N k : ℕ) (hcap : 0 < cap) (hkN : k % cap < N) :
    findInteractionById (runAppends cap times embs N) (times k, k % cap)
      = (if times (lastHit cap N (k % cap)) = times k then
          some ⟨times (lastHit cap N (k % cap)), k % cap,
            lastHit cap N (k % cap), embs (lastHit cap N (k % cap))⟩
        else none) := by
  rw [findInteractionById, runAppends_buffer cap times embs hcap N,
    List.findSome?_map]
  rw [findSome?_range_single _ cap (k % cap) (Nat.mod_lt k hcap) ?other]
  · show (match occ cap times embs N (k % cap) with
      | some r => if r.time = times k ∧ r.slot = k % cap then some r else none
      | none => none) = _
    rw [occ]
    rw [if_pos hkN]
    show (if times (lastHit cap N (k % cap)) = times k ∧ k % cap = k % cap
      then _ else none) = _
    by_cases ht : times (lastHit cap N (k % cap)) = times k
    · rw [if_pos ⟨ht, rfl⟩, if_pos ht]
    · rw [if_neg (fun h => ht h.1), if_neg ht]
  · intro t htc hts
    show (match occ cap times embs N t with
      | some r => if r.time = times k ∧ r.slot = k % cap then some r else none
      | none => none) = none
    rw [occ]
    by_cases htN : t < N
    · rw [if_pos htN]
      show (if times (lastHit cap N t) = times k ∧ t = k % cap then _
        else none) = none
      rw [if_neg (fun h => hts h.2)]
    · rw [if_neg htN]

/-- C5: episodic buffer bound and retrievability.  After `N` appends
the size is `min N cap`, and once `N > cap` a record is retrievable by
its id (the find returns that very record) exactly when it is one of
the `cap` most recent appends.  The times stream is arbitrary — equal
`Date.now()` ticks included. -/
theorem episodic_buffer_bound (cap : ℕ) (times : ℕ → ℕ)
    (embs : ℕ → List ℚ) (N : ℕ) (hcap : 0 < cap) :
    (runAppends cap times embs N).size = min N cap ∧
    (cap < N → ∀ k < N,
      (findInteractionById (runAppends cap times embs N) (times k, k % cap)
          = some ⟨times k, k % cap, k, embs k⟩
        ↔ N - cap ≤ k)) := by
  refine ⟨runAppends_size cap times embs N, ?_⟩
  intro hN k hk
  have hkcap : k % cap < N := by
    have := Nat.mod_lt k hcap
    omega
  rw [findInteraction_runAppends cap times embs N k hcap hkcap]
  constructor
  · intro hfind
    by_contra hold
    push_neg at hold
    have hK := lastHit_ge cap N (k % cap) hcap hkcap
    by_cases ht : times (lastHit cap N (k % cap)) = times k
    · rw [if_pos ht] at hfind
      have htag : lastHit cap N (k % cap) = k := by
        have := congrArg (fun o => Option.map EpRecord.tag o) hfind
        simpa using this
      omega
    · rw [if_neg ht] at hfind
      exact Option.noConfusion hfind
  · intro hrecent
    have hlh := lastHit_of_recent cap N k hk (by omega)
    rw [hlh, if_pos rfl]

/-- Witness for C5 with capacity 2 and three appends at one wall-clock
tick. -/
theorem episodic_buffer_bound_witness :
    0 < 2 ∧
    ((runAppends 2 (fun _ => 7) (fun _ => []) 3).size = min 3 2 ∧
      (2 < 3 → ∀ k < 3,
        (findInteractionById (runAppends 2 (fun _ => 7) (fun _ => []) 3)
            ((fun _ => 7) k, k % 2)
            = some ⟨(fun _ => 7) k, k % 2, k, (fun _ => []) k⟩
          ↔ 3 - 2 ≤ k))) :=
  ⟨by norm_num,
    episodic_buffer_bound 2 (fun _ => 7) (fun _ => []) 3 (by norm_num)⟩

lemma profileStep_some (lr clip : ℝ) (target cur : List ℝ) (cnt : ℕ)
    (s' : ProfileState) :
    profileStep lr clip target ⟨some cur, cnt⟩ s' ↔
    (if Real.sqrt (sumSq (rawDelta lr cur target))
        < ((stability_threshold : ℚ) : ℝ) then
      s' = ⟨some (List.zipWith (· + ·) cur
        (if clip < Real.sqrt (sumSq (rawDelta lr cur target)) then
          (rawDelta lr cur target).map
            (fun x => x / Real.sqrt (sumSq (rawDelta lr cur target)) * clip)
        else rawDelta lr cur target)), cnt + 1⟩
    else s' = ⟨some cur, cnt⟩) :=
  Iff.rfl

lemma profileStepClaim_some (lr clip : ℝ) (target cur : List ℝ) (cnt : ℕ)
    (s' : ProfileState) :
    profileStepClaim lr clip target ⟨some cur, cnt⟩ s' ↔
    (let d := if clip < Real.sqrt (sumSq (rawDelta lr cur target)) then
        (rawDelta lr cur target).map
          (fun x => x / Real.sqrt (sumSq (rawDelta lr cur target)) * clip)
      else rawDelta lr cur target
     if Real.sqrt (sumSq d) < ((stability_threshold : ℚ) : ℝ) then
      s' = ⟨some (List.zipWith (· + ·) cur d), cnt + 1⟩
    else s' = ⟨some cur, cnt⟩) :=
  Iff.rfl

lemma stability_threshold_cast :
    ((stability_threshold : ℚ) : ℝ) = 1 / 10 := by
  rw [stability_threshold]
  push_cast
  norm_num

/-- C2 counterexample: with `lr = 1`, `gradient_clip = 1/20`, profile
`[0]` and target `[1/2]`, the raw delta is `[1/2]` (norm `1/2`), the
clipped delta is `[1/20]` (norm `1/20 < 0.1`).  The claim (commit iff
the post-clip norm is below the threshold) predicts a commit; the
source gates on the pre-clip norm `1/2 ≥ 0.1` and drops the update. -/
theorem profile_gate_reads_preclip_norm :
    profileStep 1 (1 / 20) [(1 / 2 : ℝ)] ⟨some [0], 0⟩ ⟨some [0], 0⟩ ∧
    profileStepClaim 1 (1 / 20) [(1 / 2 : ℝ)] ⟨some [0], 0⟩
      ⟨some [(0 : ℝ) + 1 / 2 / (1 / 2) * (1 / 20)], 1⟩ ∧
    ¬ profileStep 1 (1 / 20) [(1 / 2 : ℝ)] ⟨some [0], 0⟩
      ⟨some [(0 : ℝ) + 1 / 2 / (1 / 2) * (1 / 20)], 1⟩ := by
  have hd0 : rawDelta 1 [(0 : ℝ)] [(1 / 2 : ℝ)] = [(1 / 2 : ℝ)] := by
    simp [rawDelta]
  have hss : sumSq [(1 / 2 : ℝ)] = (1 / 2) ^ 2 := by
    simp [sumSq]
    norm_num
  have hn : Real.sqrt (sumSq (rawDelta 1 [(0 : ℝ)] [(1 / 2 : ℝ)])) = 1 / 2 := by
    rw [hd0, hss, Real.sqrt_sq (by norm_num)]
  refine ⟨?_, ?_, ?_⟩
  · rw [profileStep_some, hn, if_neg (by rw [stability_threshold_cast]; norm_num)]
  · rw [profileStepClaim_some]
    show (if Real.sqrt (sumSq (if (1 / 20 : ℝ) <
        Real.sqrt (sumSq (rawDelta 1 [(0 : ℝ)] [(1 / 2 : ℝ)])) then
          (rawDelta 1 [(0 : ℝ)] [(1 / 2 : ℝ)]).map
            (fun x => x / Real.sqrt (sumSq (rawDelta 1 [(0 : ℝ)] [(1 / 2 : ℝ)]))
              * (1 / 20))
        else rawDelta 1 [(0 : ℝ)] [(1 / 2 : ℝ)]))
        < ((stability_threshold : ℚ) : ℝ) then _ else _)
    rw [hn, if_pos (by norm_num : (1 / 20 : ℝ) < 1 / 2), hd0]
    have hmap : ([(1 / 2 : ℝ)].map (fun x => x / (1 / 2) * (1 / 20)))
        = [(1 / 2 : ℝ) / (1 / 2) * (1 / 20)] := by
      simp
    rw [hmap]
    have hsmall : Real.sqrt (sumSq [(1 / 2 : ℝ) / (1 / 2) * (1 / 20)])
        < ((stability_threshold : ℚ) : ℝ) := by
      rw [stability_threshold_cast]
      have : ((1 / 2 : ℝ) / (1 / 2) * (1 / 20)) = 1 / 20 := by norm_num
      rw [this, show sumSq [(1 / 20 : ℝ)] = (1 / 20) ^ 2 by simp [sumSq]; norm_num,
        Real.sqrt_sq (by norm_num)]
      norm_num
    rw [if_pos hsmall]
    simp
  · rw [profileStep_some, hn, if_neg (by rw [stability_threshold_cast]; norm_num)]
    intro h
    have := congrArg ProfileState.update_count h
    simp at this

/-- C2 amended: an update call on an existing profile commits
(`update_count` increments) iff the norm of the *pre-clip* delta
`(target - profile) * lr` is strictly below the stability threshold;
when it commits, the committed delta is the clipped one; otherwise the
state is unchanged.  (With `gradient_clip ≥ stability_threshold` —
e.g. the defaults 1.0 and 0.1 — the pre- and post-clip readings
coincide; they differ only when `gradient_clip < stability_threshold`,
as in the counterexample.) -/
theorem profile_update_commit_iff (lr clip : ℝ) (target cur : List ℝ)
    (cnt : ℕ) (s' : ProfileState)
    (h : profileStep lr clip target ⟨some cur, cnt⟩ s') :
    (s'.update_count = cnt + 1 ↔
      Real.sqrt (sumSq (rawDelta lr cur target))
        < ((stability_threshold : ℚ) : ℝ)) ∧
    (Real.sqrt (sumSq (rawDelta lr cur target))
        < ((stability_threshold : ℚ) : ℝ) →
      s'.embedding = some (List.zipWith (· + ·) cur
        (if clip < Real.sqrt (sumSq (rawDelta lr cur target)) then
          (rawDelta lr cur target).map
            (fun x => x / Real.sqrt (sumSq (rawDelta lr cur target)) * clip)
        else rawDelta lr cur target))) ∧
    (¬ Real.sqrt (sumSq (rawDelta lr cur target))
        < ((stability_threshold : ℚ) : ℝ) →
      s' = ⟨some cur, cnt⟩) := by
  rw [profileStep_some] at h
  by_cases hg : Real.sqrt (sumSq (rawDelta lr cur target))
      < ((stability_threshold : ℚ) : ℝ)
  · rw [if_pos hg] at h
    subst h
    exact ⟨iff_of_true rfl hg, fun _ => rfl, fun hng => absurd hg hng⟩
  · rw [if_neg hg] at h
    subst h
    exact ⟨iff_of_false (fun hc => Nat.succ_ne_self cnt hc.symm) hg,
      fun hyes => absurd hyes hg, fun _ => rfl⟩

/-- Witness for C2's amended theorem at a concrete committing call. -/
theorem profile_update_commit_iff_witness :
    profileStep 1 1 [(1 / 20 : ℝ)] ⟨some [0], 0⟩
      ⟨some (List.zipWith (· + ·) [(0 : ℝ)] [(1 / 20 : ℝ)]), 1⟩ ∧
    ((⟨some (List.zipWith (· + ·) [(0 : ℝ)] [(1 / 20 : ℝ)]), 1⟩ :
        ProfileState).update_count = 0 + 1 ↔
      Real.sqrt (sumSq (rawDelta 1 [(0 : ℝ)] [(1 / 20 : ℝ)]))
        < ((stability_threshold : ℚ) : ℝ)) := by
  have hd0 : rawDelta 1 [(0 : ℝ)] [(1 / 20 : ℝ)] = [(1 / 20 : ℝ)] := by
    simp [rawDelta]
  have hn : Real.sqrt (sumSq (rawDelta 1 [(0 : ℝ)] [(1 / 20 : ℝ)])) = 1 / 20 := by
    rw [hd0, show sumSq [(1 / 20 : ℝ)] = (1 / 20) ^ 2 by simp [sumSq]; norm_num,
      Real.sqrt_sq (by norm_num)]
  have hstep : profileStep 1 1 [(1 / 20 : ℝ)] ⟨some [0], 0⟩
      ⟨some (List.zipWith (· + ·) [(0 : ℝ)] [(1 / 20 : ℝ)]), 1⟩ := by
    rw [profileStep_some, hn,
      if_pos (by rw [stability_threshold_cast]; norm_num)]
    rw [if_neg (by norm_num : ¬ (1 : ℝ) < 1 / 20), hd0]
  exact ⟨hstep,
    (profile_update_commit_iff 1 1 [(1 / 20 : ℝ)] [0] 0 _ hstep).1⟩

lemma performSafe_notfound {P D : Type} (calcGrads : EpRecord → ℚ → D)
    (estDiv : D → ℚ) (applyGrads : P → D → P) (now : ℚ) (id : ℕ × ℕ)
    (reward : ℚ) (s : SysState P)
    (hnf : findInteractionById s.episodic id = none) :
    performSafeLoRAUpdate calcGrads estDiv applyGrads now id reward s
      = (false, { s with lora :=
          { s.lora with rollback_checkpoint := some s.params } }) := by
  rw [performSafeLoRAUpdate, hnf]

lemma performSafe_throws {P D : Type} (calcGrads : EpRecord → ℚ → D)
    (estDiv : D → ℚ) (applyGrads : P → D → P) (now : ℚ) (id : ℕ × ℕ)
    (reward : ℚ) (s : SysState P) (inter : EpRecord)
    (hfound : findInteractionById s.episodic id = some inter)
    (hkl : s.lora.kl_divergence_cap < estDiv (calcGrads inter reward)) :
    performSafeLoRAUpdate calcGrads estDiv applyGrads now id reward s
      = (true, { s with lora :=
          { s.lora with rollback_checkpoint := some s.params } }) := by
  rw [performSafeLoRAUpdate, hfound]
  dsimp only
  rw [if_pos hkl]

/-- C7 counterexample: in a state with no retained checkpoint, an
attempt whose interaction id is absent snapshots into
`rollback_checkpoint` *before* the lookup and returns without clearing
it, so the abort does leave a state change (a retained checkpoint);
and a committed attempt (KL within the cap, history grows) also leaves
the checkpoint in place rather than discarding it. -/
theorem adaptation_checkpoint_retained_cex :
    ((performSafeLoRAUpdate (fun _ r => r) (fun d => d) (fun p _ => p)
        0 (0, 0) (9 / 10)
        ⟨initEpisodic 1, [], [], ⟨true, 1 / 10, [], none⟩, (5 : ℚ)⟩).2.lora.rollback_checkpoint
      = some 5) ∧
    ((⟨initEpisodic 1, [], [], ⟨true, 1 / 10, [], none⟩, (5 : ℚ)⟩ :
      SysState ℚ).lora.rollback_checkpoint = none) ∧
    ((performSafeLoRAUpdate (fun _ _ => (0 : ℚ)) (fun d => d) (fun p _ => p)
        0 (3, 0) (9 / 10)
        ⟨⟨[some ⟨3, 0, 0, []⟩], 1, 1⟩, [], [], ⟨true, 1 / 10, [], none⟩,
          (5 : ℚ)⟩).1 = false ∧
      (performSafeLoRAUpdate (fun _ _ => (0 : ℚ)) (fun d => d) (fun p _ => p)
        0 (3, 0) (9 / 10)
        ⟨⟨[some ⟨3, 0, 0, []⟩], 1, 1⟩, [], [], ⟨true, 1 / 10, [], none⟩,
          (5 : ℚ)⟩).2.lora.adaptation_history.length = 1 ∧
      (performSafeLoRAUpdate (fun _ _ => (0 : ℚ)) (fun d => d) (fun p _ => p)
        0 (3, 0) (9 / 10)
        ⟨⟨[some ⟨3, 0, 0, []⟩], 1, 1⟩, [], [], ⟨true, 1 / 10, [], none⟩,
          (5 : ℚ)⟩).2.lora.rollback_checkpoint = some 5) := by
  have hnf : findInteractionById
      (⟨initEpisodic 1, [], [], ⟨true, 1 / 10, [], none⟩, (5 : ℚ)⟩ :
        SysState ℚ).episodic (0, 0) = none := by
    rfl
  have hfound : findInteractionById
      (⟨⟨[some ⟨3, 0, 0, []⟩], 1, 1⟩, [], [], ⟨true, 1 / 10, [], none⟩,
        (5 : ℚ)⟩ : SysState ℚ).episodic (3, 0) = some ⟨3, 0, 0, []⟩ := by
    rfl
  refine ⟨?_, rfl, ?_, ?_, ?_⟩
  · rw [performSafe_notfound _ _ _ _ _ _ _ hnf]
  · rw [performSafeLoRAUpdate, hfound, if_neg (by norm_num : ¬ (1 / 10 : ℚ) < 0)]
  · rw [performSafeLoRAUpdate, hfound, if_neg (by norm_num : ¬ (1 / 10 : ℚ) < 0)]
    rfl
  · rw [performSafeLoRAUpdate, hfound, if_neg (by norm_num : ¬ (1 / 10 : ℚ) < 0)]

/-- C7 amended: an adaptation attempt whose interaction id is not
found leaves the model parameters, the adaptation history, and the
reported adaptation counts unchanged, but it is not free of state
change: the parameter snapshot taken at entry remains in
`rollback_checkpoint` (neither the abort nor a commit clears it; it is
only overwritten at the start of the next attempt). -/
theorem adaptation_notfound_abort {P D : Type} (calcGrads : EpRecord → ℚ → D)
    (estDiv : D → ℚ) (applyGrads : P → D → P) (now : ℚ) (id : ℕ × ℕ)
    (reward : ℚ) (s : SysState P)
    (hnf : findInteractionById s.episodic id = none) :
    (performSafeLoRAUpdate calcGrads estDiv applyGrads now id reward s).1
      = false ∧
    (performSafeLoRAUpdate calcGrads estDiv applyGrads now id reward s).2.params
      = s.params ∧
    (performSafeLoRAUpdate calcGrads estDiv applyGrads now id
      reward s).2.lora.adaptation_history = s.lora.adaptation_history ∧
    adaptationCount
      (performSafeLoRAUpdate calcGrads estDiv applyGrads now id reward s).2
      = adaptationCount s ∧
    successfulAdaptations
      (performSafeLoRAUpdate calcGrads estDiv applyGrads now id reward s).2
      = successfulAdaptations s ∧
    (performSafeLoRAUpdate calcGrads estDiv applyGrads now id
      reward s).2.lora.rollback_checkpoint = some s.params := by
  rw [performSafe_notfound _ _ _ _ _ _ _ hnf]
  exact ⟨rfl, rfl, rfl, rfl, rfl, rfl⟩

/-- Witness for C7's amended theorem on a concrete absent id. -/
theorem adaptation_notfound_abort_witness :
    findInteractionById
      (⟨initEpisodic 2, [], [], ⟨true, 1 / 10, [], none⟩, (7 : ℚ)⟩ :
        SysState ℚ).episodic (4, 0) = none ∧
    ((performSafeLoRAUpdate (fun _ r => r) (fun d => d) (fun p g => p + g)
        1 (4, 0) (9 / 10)
        ⟨initEpisodic 2, [], [], ⟨true, 1 / 10, [], none⟩, (7 : ℚ)⟩).1 = false ∧
      (performSafeLoRAUpdate (fun _ r => r) (fun d => d) (fun p g => p + g)
        1 (4, 0) (9 / 10)
        ⟨initEpisodic 2, [], [], ⟨true, 1 / 10, [], none⟩, (7 : ℚ)⟩).2.params
        = (⟨initEpisodic 2, [], [], ⟨true, 1 / 10, [], none⟩, (7 : ℚ)⟩ :
          SysState ℚ).params ∧
      (performSafeLoRAUpdate (fun _ r => r) (fun d => d) (fun p g => p + g)
        1 (4, 0) (9 / 10)
        ⟨initEpisodic 2, [], [], ⟨true, 1 / 10, [], none⟩,
          (7 : ℚ)⟩).2.lora.adaptation_history
        = (⟨initEpisodic 2, [], [], ⟨true, 1 / 10, [], none⟩, (7 : ℚ)⟩ :
          SysState ℚ).lora.adaptation_history ∧
      adaptationCount (performSafeLoRAUpdate (fun _ r => r) (fun d => d)
        (fun p g => p + g) 1 (4, 0) (9 / 10)
        ⟨initEpisodic 2, [], [], ⟨true, 1 / 10, [], none⟩, (7 : ℚ)⟩).2
        = adaptationCount
          (⟨initEpisodic 2, [], [], ⟨true, 1 / 10, [], none⟩, (7 : ℚ)⟩ :
            SysState ℚ) ∧
      successfulAdaptations (performSafeLoRAUpdate (fun _ r => r) (fun d => d)
        (fun p g => p + g) 1 (4, 0) (9 / 10)
        ⟨initEpisodic 2, [], [], ⟨true, 1 / 10, [], none⟩, (7 : ℚ)⟩).2
        = successfulAdaptations
          (⟨initEpisodic 2, [], [], ⟨true, 1 / 10, [], none⟩, (7 : ℚ)⟩ :
            SysState ℚ) ∧
      (performSafeLoRAUpdate (fun _ r => r) (fun d => d) (fun p g => p + g)
        1 (4, 0) (9 / 10)
        ⟨initEpisodic 2, [], [], ⟨true, 1 / 10, [], none⟩,
          (7 : ℚ)⟩).2.lora.rollback_checkpoint
        = some (⟨initEpisodic 2, [], [], ⟨true, 1 / 10, [], none⟩, (7 : ℚ)⟩ :
          SysState ℚ).params) :=
  ⟨rfl, adaptation_notfound_abort (fun _ r => r) (fun d => d) (fun p g => p + g)
    1 (4, 0) (9 / 10)
    ⟨initEpisodic 2, [], [], ⟨true, 1 / 10, [], none⟩, (7 : ℚ)⟩ rfl⟩

/-- C1: adaptation atomicity.  For any `provideFeedback` call whose
adaptation attempt finds the interaction and estimates a KL divergence
above the configured cap, the adaptation throws before touching the
blocks and the catch rolls back to the entry snapshot: the
adaptable-model parameters are unchanged, no `AdaptationHistoryEntry`
is appended, and `adaptation_count` / `successful_adaptations` from
`getAdaptationMetadata` are unchanged.  (Quantified over the external
adaptable-model contract `calcGrads`/`estDiv`/`applyGrads`.) -/
theorem adaptation_atomic_on_divergence {P D : Type}
    (calcGrads : EpRecord → ℚ → D) (estDiv : D → ℚ) (applyGrads : P → D → P)
    (semCap : ℕ) (now rating : ℚ) (id : ℕ × ℕ) (explicitFeedback : Bool)
    (s : SysState P) (inter : EpRecord)
    (hfound : findInteractionById s.episodic id = some inter)
    (hkl : s.lora.kl_divergence_cap < estDiv (calcGrads inter rating)) :
    (provideFeedback calcGrads estDiv applyGrads semCap now rating id
      explicitFeedback s).params = s.params ∧
    (provideFeedback calcGrads estDiv applyGrads semCap now rating id
      explicitFeedback s).lora.adaptation_history
      = s.lora.adaptation_history ∧
    adaptationCount (provideFeedback calcGrads estDiv applyGrads semCap now
      rating id explicitFeedback s) = adaptationCount s ∧
    successfulAdaptations (provideFeedback calcGrads estDiv applyGrads semCap
      now rating id explicitFeedback s) = successfulAdaptations s := by
  have hstage : ∀ sx : SysState P,
      (if 8 / 10 < rating then
        match findInteractionById sx.episodic id with
        | some inter2 =>
            { sx with semantic := (addSemanticMemory semCap (17 / 20) now
                inter2.emb sx.semantic).2 }
        | none => sx
      else sx).params = sx.params ∧
      (if 8 / 10 < rating then
        match findInteractionById sx.episodic id with
        | some inter2 =>
            { sx with semantic := (addSemanticMemory semCap (17 / 20) now
                inter2.emb sx.semantic).2 }
        | none => sx
      else sx).lora = sx.lora := by
    intro sx
    by_cases hc : 8 / 10 < rating
    · rw [if_pos hc]
      cases findInteractionById sx.episodic id with
      | none => exact ⟨rfl, rfl⟩
      | some i2 => exact ⟨rfl, rfl⟩
    · rw [if_neg hc]
      exact ⟨rfl, rfl⟩
  have hloraStage :
      (if 7 / 10 < rating ∧ explicitFeedback = true ∧
          ({ s with bandit := banditReward rating s.bandit } :
            SysState P).lora.active = true then
        match performSafeLoRAUpdate calcGrads estDiv applyGrads now id rating
          { s with bandit := banditReward rating s.bandit } with
        | (true, sErr) => rollbackLoRAAdapters sErr
        | (false, sOk) => sOk
      else { s with bandit := banditReward rating s.bandit }).params
        = s.params ∧
      (if 7 / 10 < rating ∧ explicitFeedback = true ∧
          ({ s with bandit := banditReward rating s.bandit } :
            SysState P).lora.active = true then
        match performSafeLoRAUpdate calcGrads estDiv applyGrads now id rating
          { s with bandit := banditReward rating s.bandit } with
        | (true, sErr) => rollbackLoRAAdapters sErr
        | (false, sOk) => sOk
      else { s with bandit := banditReward rating s.bandit }).lora.adaptation_history
        = s.lora.adaptation_history := by
    by_cases hb : 7 / 10 < rating ∧ explicitFeedback = true ∧
        ({ s with bandit := banditReward rating s.bandit } :
          SysState P).lora.active = true
    · rw [if_pos hb,
        performSafe_throws calcGrads estDiv applyGrads now id rating
          { s with bandit := banditReward rating s.bandit } inter hfound hkl]
      exact ⟨rfl, rfl⟩
    · rw [if_neg hb]
      exact ⟨rfl, rfl⟩
  obtain ⟨hp2, hl2⟩ := hstage
    (if 7 / 10 < rating ∧ explicitFeedback = true ∧
        ({ s with bandit := banditReward rating s.bandit } :
          SysState P).lora.active = true then
      match performSafeLoRAUpdate calcGrads estDiv applyGrads now id rating
        { s with bandit := banditReward rating s.bandit } with
      | (true, sErr) => rollbackLoRAAdapters sErr
      | (false, sOk) => sOk
    else { s with bandit := banditReward rating s.bandit })
  obtain ⟨hp1, hl1⟩ := hloraStage
  have hhist : (provideFeedback calcGrads estDiv applyGrads semCap now rating
      id explicitFeedback s).lora.adaptation_history
      = s.lora.adaptation_history :=
    (congrArg LoraState.adaptation_history hl2).trans hl1
  refine ⟨hp2.trans hp1, hhist, ?_, ?_⟩
  · exact congrArg List.length hhist
  · exact congrArg (fun l => (List.filter (fun h => h.success) l).length) hhist

/-- Witness for C1 at a concrete rejected adaptation. -/
theorem adaptation_atomic_on_divergence_witness :
    findInteractionById
      (⟨⟨[some ⟨3, 0, 0, []⟩], 1, 1⟩, [], mkBandit 1,
        ⟨true, 1 / 10, [], none⟩, (5 : ℚ)⟩ : SysState ℚ).episodic (3, 0)
      = some ⟨3, 0, 0, []⟩ ∧
    (⟨⟨[some ⟨3, 0, 0, []⟩], 1, 1⟩, [], mkBandit 1, ⟨true, 1 / 10, [], none⟩,
      (5 : ℚ)⟩ : SysState ℚ).lora.kl_divergence_cap
      < (fun d => d) ((fun _ r => r) (⟨3, 0, 0, []⟩ : EpRecord) (9 / 10 : ℚ)) ∧
    ((provideFeedback (fun _ r => r) (fun d => d) (fun p g => p + g) 10 1
        (9 / 10) (3, 0) true
        ⟨⟨[some ⟨3, 0, 0, []⟩], 1, 1⟩, [], mkBandit 1, ⟨true, 1 / 10, [], none⟩,
          (5 : ℚ)⟩).params = (5 : ℚ) ∧
      (provideFeedback (fun _ r => r) (fun d => d) (fun p g => p + g) 10 1
        (9 / 10) (3, 0) true
        ⟨⟨[some ⟨3, 0, 0, []⟩], 1, 1⟩, [], mkBandit 1, ⟨true, 1 / 10, [], none⟩,
          (5 : ℚ)⟩).lora.adaptation_history = [] ∧
      adaptationCount (provideFeedback (fun _ r => r) (fun d => d)
        (fun p g => p + g) 10 1 (9 / 10) (3, 0) true
        ⟨⟨[some ⟨3, 0, 0, []⟩], 1, 1⟩, [], mkBandit 1, ⟨true, 1 / 10, [], none⟩,
          (5 : ℚ)⟩) = 0 ∧
      successfulAdaptations (provideFeedback (fun _ r => r) (fun d => d)
        (fun p g => p + g) 10 1 (9 / 10) (3, 0) true
        ⟨⟨[some ⟨3, 0, 0, []⟩], 1, 1⟩, [], mkBandit 1, ⟨true, 1 / 10, [], none⟩,
          (5 : ℚ)⟩) = 0) := by
  have hfound : findInteractionById
      (⟨⟨[some ⟨3, 0, 0, []⟩], 1, 1⟩, [], mkBandit 1,
        ⟨true, 1 / 10, [], none⟩, (5 : ℚ)⟩ : SysState ℚ).episodic (3, 0)
      = some ⟨3, 0, 0, []⟩ := rfl
  have hkl : (⟨⟨[some ⟨3, 0, 0, []⟩], 1, 1⟩, [], mkBandit 1,
      ⟨true, 1 / 10, [], none⟩, (5 : ℚ)⟩ : SysState ℚ).lora.kl_divergence_cap
      < (fun d => d) ((fun _ r => r) (⟨3, 0, 0, []⟩ : EpRecord) (9 / 10 : ℚ)) := by
    norm_num
  have h := adaptation_atomic_on_divergence (fun _ r => r) (fun d => d)
    (fun p g => p + g) 10 1 (9 / 10) (3, 0) true
    ⟨⟨[some ⟨3, 0, 0, []⟩], 1, 1⟩, [], mkBandit 1, ⟨true, 1 / 10, [], none⟩,
      (5 : ℚ)⟩ ⟨3, 0, 0, []⟩ hfound hkl
  exact ⟨hfound, hkl, h.1, h.2.1, h.2.2.1, h.2.2.2⟩

end ThoughtGarden
